import Mathlib

/-!
Shallow embedding of the game simulation engine of `src/game-core/engine.ts`
(browser match-three puzzle, "cant-stop-the-swap").

Modelling conventions:
* JS numbers holding cell values are modelled as `Int` (`-1` is the EMPTY
  sentinel, colors are `0 ≤ c`).
* JS numbers holding pixel offsets, speeds and millisecond timers are
  modelled as `ℚ` (the source does exact-looking arithmetic on them; no
  claim is about float rounding).
* The grid is a total function `Nat → Nat → Int`; only indices
  `y < height`, `x < width` are ever read by the engine.  Row arrays from
  the level queue are `Nat → Int`, normalized to the grid width exactly as
  the source's `Array.from({length: width}, ...)` normalization does.
* `for`/`while` loops are embedded as structurally recursive functions
  whose fuel argument is the exact iteration count of the source loop
  (noted at each definition), so every definition reduces by `rfl`/`decide`.
* Cosmetic particle state, the optional mask-contact hook and the
  fire-and-forget notification callbacks (`onSwap`, `onMatch`, `onWin`,
  `onTopContact`) mutate no engine field read anywhere else and are not
  modelled; comments mark the spots where the source invokes them.
-/

namespace CantStop

/-- The phase state machine of the engine (`type Phase` in the source). -/
inductive Phase where
  | idle
  | clearing
  | settling
deriving DecidableEq, Repr

/-- The `FallPiece` record from the source (cells in transit while settling). -/
structure FallPiece where
  x : Nat
  fromY : Nat
  toY : Nat
  y : ℚ
  color : Int
  speedRowsPerSec : Option ℚ
deriving DecidableEq

/-- The mutable state of `class Engine`.  Fields keep the source's names.
`numColors` is the constructor argument; the palette list in the source has
5 entries and is sliced to `numColors`, so `colors.length = min numColors 5`
(see `Engine.colorsLength`). -/
structure Engine where
  width : Nat
  height : Nat
  numColors : Nat
  cellSize : ℚ
  grid : Nat → Nat → Int
  cursorX : Int
  cursorY : Int
  phase : Phase
  matchMask : Nat → Nat → Bool
  clearTimerMs : ℚ
  chainCount : Nat
  fallPieces : List FallPiece
  fallSpeedRowsPerSec : ℚ
  cascadeFallSpeedMultiplier : ℚ
  scrollSpeedPxPerSec : ℚ
  scrollOffsetPx : ℚ
  levelQueue : List (Nat → Int)
  totalLevelLines : Nat
  rowsInserted : Nat
  score : Nat
  matchesTotal : Nat
  linesClearedEq : Nat
  targetLines : Nat
  risePauseMs : ℚ
  risePauseMaxMs : ℚ
  clearLineY : Nat
  hasWon : Bool
  hasLost : Bool

/-- The source's `this.colors.length`: the 5-entry palette sliced to `numColors`. -/
def Engine.colorsLength (e : Engine) : Nat := min e.numColors 5

/-- The constructor `new Engine(width, height, numColors)`.
`cursorX = Math.floor((width - 2) / 2)` (floor division on a possibly
negative value), `cursorY = Math.floor(height / 2)`,
`clearLineY = Math.floor(height * 0.5)`. -/
def Engine.new (width height numColors : Nat) : Engine :=
  { width := width
    height := height
    numColors := numColors
    cellSize := 64
    grid := fun _ _ => -1
    cursorX := ((width : Int) - 2).fdiv 2
    cursorY := ((height / 2 : Nat) : Int)
    phase := Phase.idle
    matchMask := fun _ _ => false
    clearTimerMs := 0
    chainCount := 0
    fallPieces := []
    fallSpeedRowsPerSec := 18
    cascadeFallSpeedMultiplier := 3 / 5
    scrollSpeedPxPerSec := 24
    scrollOffsetPx := 0
    levelQueue := []
    totalLevelLines := 0
    rowsInserted := 0
    score := 0
    matchesTotal := 0
    linesClearedEq := 0
    targetLines := 5
    risePauseMs := 0
    risePauseMaxMs := 0
    clearLineY := height / 2
    hasWon := false
    hasLost := false }

/-! ### Match scanning (`scanForMatches`)

The source runs the identical run-detection loop once over every row
(left to right) and once over every column (top to bottom).  `lineScanGo`
is that loop over one line `f` of length `n`: the source iterates
`x = 1 .. n` (`for (x = 1; x <= width; x++)`), so `lineScan` supplies fuel
`n` with `x` starting at `1`.  `runStart` and the accumulated mask and
`found` flag are threaded exactly as in the source. -/

def lineScanGo (f : Nat → Int) (n : Nat) :
    Nat → Nat → Nat → (Nat → Bool) → Bool → (Nat → Bool) × Bool
  | 0, _, _, mask, found => (mask, found)
  | fuel + 1, x, runStart, mask, found =>
    -- same = x < n && prev >= 0 && curr >= 0 && prev === curr
    if x < n ∧ 0 ≤ f (x - 1) ∧ 0 ≤ f x ∧ f (x - 1) = f x then
      lineScanGo f n fuel (x + 1) runStart mask found
    else
      -- run ended: mark it when f[x-1] >= 0 and its length is >= 3
      if 0 ≤ f (x - 1) ∧ 3 ≤ x - runStart then
        lineScanGo f n fuel (x + 1) x
          (fun k => mask k || (decide (runStart ≤ k) && decide (k < x))) true
      else
        lineScanGo f n fuel (x + 1) x mask found

/-- One full line scan, as run by the source for each row and each column. -/
def lineScan (f : Nat → Int) (n : Nat) : (Nat → Bool) × Bool :=
  lineScanGo f n n 1 0 (fun _ => false) false

/-- The full `scanForMatches` on a grid: the horizontal pass marks in each row, the
vertical pass marks in each column; the two masks land in the same 2D mask
array (so they are OR'd), and the `found` flag accumulates over both
passes. -/
def scanGrid (g : Nat → Nat → Int) (w h : Nat) : (Nat → Nat → Bool) × Bool :=
  let hres := fun y => lineScan (fun x => g y x) w
  let vres := fun x => lineScan (fun y => g y x) h
  (fun y x => (hres y).1 x || (vres x).1 y,
    ((List.range h).any fun y => (hres y).2) ||
      ((List.range w).any fun x => (vres x).2))

/-- The method `this.scanForMatches()` reads `this.grid` and rebuilds `this.matchMask`;
we return the new mask together with the `found` result. -/
def Engine.scanForMatches (e : Engine) : (Nat → Nat → Bool) × Bool :=
  scanGrid e.grid e.width e.height

/-- Specification predicate for claim C1: cell `k` of line `f` (of length
`n`) lies in a horizontal run of three or more adjacent equal non-empty
values, i.e. some window of three consecutive equal non-empty cells inside
the line contains `k`. -/
def inWindow (f : Nat → Int) (n k : Nat) : Prop :=
  ∃ s, s + 2 < n ∧ s ≤ k ∧ k ≤ s + 2 ∧
    0 ≤ f s ∧ f s = f (s + 1) ∧ f (s + 1) = f (s + 2)

/-! ### Cursor -/

/-- Method `moveCursor(dx, dy)`: clamped cursor move. -/
def Engine.moveCursor (e : Engine) (dx dy : Int) : Engine :=
  { e with
    cursorX := max 0 (min ((e.width : Int) - 2) (e.cursorX + dx))
    cursorY := max 0 (min ((e.height : Int) - 1) (e.cursorY + dy)) }

/-- Method `setCursorAbsolute(x, y)`: clamped absolute cursor placement
(the source truncates with `| 0`; inputs are already integers here). -/
def Engine.setCursorAbsolute (e : Engine) (x y : Int) : Engine :=
  { e with
    cursorX := max 0 (min ((e.width : Int) - 2) x)
    cursorY := max 0 (min ((e.height : Int) - 1) y) }

/-! ### Settling (gravity) -/

/-- Inner loop of `startSettlingAnimation` for one column: walks the
column's occupied cells bottom-most first (the source iterates the
collected `col` array from its last element down), with `writeY` starting
at `height - 1` and decremented after every element.  Returns the list of
`fromY` rows that are blanked out and the fall pieces pushed, in push
order. -/
def settleGo (x : Nat) (speed : ℚ) : List (Int × Nat) → Nat → List Nat × List FallPiece
  | [], _ => ([], [])
  | (c, fromY) :: rest, writeY =>
    let r := settleGo x speed rest (writeY - 1)
    if fromY ≠ writeY then
      (fromY :: r.1,
        { x := x, fromY := fromY, toY := writeY, y := (fromY : ℚ), color := c,
          speedRowsPerSec := some speed } :: r.2)
    else r

/-- Occupied cells of column `x`, top to bottom, as `(color, fromY)` pairs
(the `col` array built by `startSettlingAnimation`). -/
def columnCells (g : Nat → Nat → Int) (h x : Nat) : List (Int × Nat) :=
  (List.range h).filterMap fun y => if 0 ≤ g y x then some (g y x, y) else none

/-- Method `startSettlingAnimation()`: per column, compact occupied cells to the
bottom; cells that move are blanked in the grid and become fall pieces.
The per-piece speed uses the cascade multiplier when the phase is still
`clearing` at call time.  Finally the phase becomes `settling`. -/
def Engine.startSettlingAnimation (e : Engine) : Engine :=
  let speed :=
    if e.phase = Phase.clearing then
      e.fallSpeedRowsPerSec * e.cascadeFallSpeedMultiplier
    else e.fallSpeedRowsPerSec
  let colRes : Nat → List Nat × List FallPiece := fun x =>
    settleGo x speed (columnCells e.grid e.height x).reverse (e.height - 1)
  { e with
    grid := fun y x => if x < e.width ∧ y ∈ (colRes x).1 then -1 else e.grid y x
    fallPieces := (List.range e.width).flatMap fun x => (colRes x).2
    phase := Phase.settling }

/-! ### Swap -/

/-- The grid after `swap()` exchanges the two cells at the cursor:
`grid[y][x] = b; grid[y][x+1] = a`. -/
def Engine.swappedGrid (e : Engine) : Nat → Nat → Int :=
  fun r c =>
    if r = e.cursorY.toNat ∧ c = e.cursorX.toNat then
      e.grid e.cursorY.toNat (e.cursorX.toNat + 1)
    else if r = e.cursorY.toNat ∧ c = e.cursorX.toNat + 1 then
      e.grid e.cursorY.toNat e.cursorX.toNat
    else e.grid r c

/-- Method `swap()`: gated on `idle` phase and the terminal flags; exchanges the
two cells at the cursor, rescans, and branches into `clearing`, `settling`
or stays `idle`.  The source notifies `onSwap` after the exchange (hook,
not modelled). -/
def Engine.swap (e : Engine) : Engine :=
  if e.phase ≠ Phase.idle ∨ e.hasWon = true ∨ e.hasLost = true then e
  else
    let a := e.grid e.cursorY.toNat e.cursorX.toNat
    let b := e.grid e.cursorY.toNat (e.cursorX.toNat + 1)
    if a < 0 ∧ b < 0 then e
    else
      let e1 := { e with grid := e.swappedGrid }
      let scanRes := e1.scanForMatches
      let e2 := { e1 with matchMask := scanRes.1 }
      if scanRes.2 then
        { e2 with
          phase := Phase.clearing
          clearTimerMs := 230
          chainCount := max e2.chainCount 1 }
      else if a < 0 ∨ b < 0 then e2.startSettlingAnimation
      else e2

/-! ### Row sanitization (`sanitizeRow`) and the level queue -/

/-- Helper `pickAlt`: first color index in `[0, numColors)` not in the forbidden
set, falling back to 0. -/
def pickAlt (numColors : Nat) (forbidden : List Int) : Int :=
  match (List.range numColors).find? (fun c => !(forbidden.contains ((c : Nat) : Int))) with
  | some c => (c : Int)
  | none => 0

/-- The read `gridContext[height-1]?.[x] ?? -1` (the row that will sit directly
above the inserted row after the shift). -/
def ctxTop1 (h : Nat) (ctx : Nat → Nat → Int) (x : Nat) : Int :=
  if 1 ≤ h then ctx (h - 1) x else -1

/-- The read `gridContext[height-2]?.[x] ?? -1`. -/
def ctxTop2 (h : Nat) (ctx : Nat → Nat → Int) (x : Nat) : Int :=
  if 2 ≤ h then ctx (h - 2) x else -1

/-- Generic ascending `for (x = 0; x < w; x++)` loop over a row, applying
`body` at each index; fuel is the remaining iteration count. -/
def passGo (body : (Nat → Int) → Nat → Nat → Int) : Nat → Nat → (Nat → Int) → Nat → Int
  | 0, _, out => out
  | fuel + 1, x, out => passGo body fuel (x + 1) (body out x)

/-- First `sanitizeRow` pass: fix horizontal triples left to right.  The
replacement avoids the repeated value and, if the two context cells above
this column are equal non-empty, that value too. -/
def hPassBody (numColors h : Nat) (ctx : Nat → Nat → Int)
    (out : Nat → Int) (x : Nat) : Nat → Int :=
  if out x < 0 then out
  else if 2 ≤ x ∧ out x = out (x - 1) ∧ out (x - 1) = out (x - 2) then
    let t1 := ctxTop1 h ctx x
    let t2 := ctxTop2 h ctx x
    let forbidden :=
      if 0 ≤ t1 ∧ t1 = t2 then [out (x - 1)] ++ [t1] else [out (x - 1)]
    fun i => if i = x then pickAlt numColors forbidden else out i
  else out

/-- Second `sanitizeRow` pass: avoid vertical triples with the two context
rows above; the replacement also avoids extending a repeat of the two cells
to the left.  (At `x = 1` the source compares `out[0]` with the undefined
`out[-1]`, which is never equal, hence the `2 ≤ x` guard.) -/
def vPassBody (numColors h : Nat) (ctx : Nat → Nat → Int)
    (out : Nat → Int) (x : Nat) : Nat → Int :=
  if out x < 0 then out
  else
    let t1 := ctxTop1 h ctx x
    let t2 := ctxTop2 h ctx x
    if 0 ≤ t1 ∧ 0 ≤ t2 ∧ t1 = t2 ∧ out x = t1 then
      let forbidden :=
        if 2 ≤ x ∧ 0 ≤ out (x - 1) ∧ out (x - 1) = out (x - 2) then
          [t1] ++ [out (x - 1)]
        else [t1]
      fun i => if i = x then pickAlt numColors forbidden else out i
    else out

/-- Method `sanitizeRow(row, gridContext)`: horizontal repair pass then vertical
repair pass over the (already width-normalized) row. -/
def Engine.sanitizeRow (e : Engine) (row : Nat → Int) (ctx : Nat → Nat → Int) : Nat → Int :=
  let n := e.colorsLength
  passGo (vPassBody n e.height ctx) e.width 0
    (passGo (hPassBody n e.height ctx) e.width 0 row)

/-- Row normalization `Array.from({length: width}, (_, i) => r[i] ?? -1)`
(indices at or beyond the row's length read as empty). -/
def normalizeRow (r : List Int) : Nat → Int := fun i => r.getD i (-1)

/-- Simulated `shift rows up and insert at the bottom` used while
sanitizing the queue (and the real shift of
`insertRowFromBottomFromQueue`). -/
def shiftUpInsert (h : Nat) (g : Nat → Nat → Int) (row : Nat → Int) : Nat → Nat → Int :=
  fun y x => if y = h - 1 then row x else g (y + 1) x

/-- The sanitization loop of `setLevelQueue`: each normalized candidate row
is sanitized against the simulated grid `sim`, which is then shifted up
with the sanitized row inserted at the bottom, so later rows see the
sanitized rows above them. -/
def sanitizeQueueGo (e : Engine) : List (List Int) → (Nat → Nat → Int) → List (Nat → Int)
  | [], _ => []
  | r :: rest, sim =>
    let s := e.sanitizeRow (normalizeRow r) sim
    s :: sanitizeQueueGo e rest (shiftUpInsert e.height sim s)

/-- The sanitized queue built by `setLevelQueue`, starting from a simulated
copy of the current grid. -/
def Engine.sanitizedQueue (e : Engine) (rows : List (List Int)) : List (Nat → Int) :=
  sanitizeQueueGo e rows e.grid

/-- The bottom-up placement loop of `setLevelQueue`:
`for (y = height-1; y >= 0 && placed < want; y--)`, popping the queue front
into row `y` (fuel counts the remaining `y` values; the row written in an
iteration with fuel `fuel+1` is `y = fuel`).  Returns the new grid, the
remaining queue, and `placed`. -/
def placeRows : Nat → Nat → List (Nat → Int) → (Nat → Nat → Int) → Nat →
    (Nat → Nat → Int) × List (Nat → Int) × Nat
  | 0, _, queue, temp, placed => (temp, queue, placed)
  | fuel + 1, want, queue, temp, placed =>
    if placed < want then
      match queue with
      | r :: rest =>
        placeRows fuel want rest (fun y x => if y = fuel then r x else temp y x)
          (placed + 1)
      | [] => (temp, queue, placed)
    else (temp, queue, placed)

/-- The count `want = visibleCount !== undefined ? Math.max(0, visibleCount | 0) : 0`. -/
def visibleWant (visibleCount : Option Int) : Nat :=
  match visibleCount with
  | some v => (max 0 v).toNat
  | none => 0

/-- Method `setLevelQueue(rows, visibleCount)`: sanitize the whole queue against a
simulated copy of the current grid, then rebuild the visible grid from a
blank `temp`, placing up to `visibleWant visibleCount` queue rows
bottom-up; `rowsInserted` becomes the number placed. -/
def Engine.setLevelQueue (e : Engine) (rows : List (List Int)) (visibleCount : Option Int) : Engine :=
  let q := e.sanitizedQueue rows
  let res := placeRows e.height (visibleWant visibleCount) q (fun _ _ => -1) 0
  { e with grid := res.1, levelQueue := res.2.1, rowsInserted := res.2.2 }

/-! ### Automatic rising -/

/-- Helper `shiftNextRow()`: pop the queue front, or an empty row when the
queue is exhausted. -/
def Engine.shiftNextRow (e : Engine) : (Nat → Int) × List (Nat → Int) :=
  match e.levelQueue with
  | r :: rest => (r, rest)
  | [] => (fun _ => -1, [])

/-- Method `insertRowFromBottomFromQueue()`: returns `true` (loss) without any
mutation when the top visible row is occupied; otherwise shifts the grid up
one row, installs the next queue row (already width-normalized) at the
bottom, rides the cursor up one row (clamped at 0) and counts the
insertion.  The advisory mask-contact hook is not modelled. -/
def Engine.insertRowFromBottomFromQueue (e : Engine) : Bool × Engine :=
  -- `this.grid[0][x] >= 0` for some x: the top visible row is occupied
  if ∃ x < e.width, 0 ≤ e.grid 0 x then (true, e)
  else
    let nr := e.shiftNextRow
    (false,
      { e with
        grid := shiftUpInsert e.height e.grid nr.1
        levelQueue := nr.2
        cursorY := max 0 (e.cursorY - 1)
        rowsInserted := e.rowsInserted + 1 })

/-- Loss condition B: some occupied cell's screen-space top edge
`y * cellSize - scrollOffsetPx` is at or above the visible top boundary. -/
def Engine.topBreach (e : Engine) : Bool :=
  decide (∃ y < e.height, ∃ x < e.width,
    0 ≤ e.grid y x ∧ (y : ℚ) * e.cellSize - e.scrollOffsetPx ≤ 0)

/-- The `while (scrollOffsetPx >= cellPx)` consumption loop: each iteration
pays one cell height off the offset and inserts one row; an insertion loss
sets `hasLost` and stops (the source returns from `update` there).  The
source loop terminates exactly when `cellSize > 0`; the fuel passed by
`scrollStep` bounds its iteration count in that case. -/
def Engine.consumeRows : Engine → Nat → Engine
  | e, 0 => e
  | e, fuel + 1 =>
    if e.cellSize ≤ e.scrollOffsetPx then
      let e1 := { e with scrollOffsetPx := e.scrollOffsetPx - e.cellSize }
      let r := e1.insertRowFromBottomFromQueue
      if r.1 then { r.2 with hasLost := true }
      else r.2.consumeRows fuel
    else e

/-- The scrolling block of `update` (entered only while idle, unpaused and
with positive scroll speed): advance the fractional offset, consume whole
cells (possibly losing), then apply loss condition B.  The source also
fires the advisory mask-contact hook here (not modelled, no state
change). -/
def Engine.scrollStep (e : Engine) (dtMs : ℚ) : Engine :=
  let e1 := { e with scrollOffsetPx := e.scrollOffsetPx + e.scrollSpeedPxPerSec * dtMs / 1000 }
  let e2 := e1.consumeRows ((e1.scrollOffsetPx / e1.cellSize).floor.toNat + 1)
  if e2.hasLost = true then e2
  else if e2.topBreach then { e2 with hasLost := true }
  else e2

/-! ### Clearing -/

/-- Count of masked cells (`tilesCleared` of `applyClearAndCount`). -/
def Engine.tilesCleared (e : Engine) : Nat :=
  ((List.range e.height).map fun y =>
    ((List.range e.width).filter fun x => e.matchMask y x).length).sum

/-- Whether some masked cell lies at or below `clearLineY`. -/
def Engine.clearedBelowLine (e : Engine) : Bool :=
  decide (∃ y < e.height, ∃ x < e.width, e.matchMask y x = true ∧ e.clearLineY ≤ y)

/-- The grid mutation of `applyClearAndCount`: every masked in-range cell
becomes empty. -/
def Engine.clearedGrid (e : Engine) : Nat → Nat → Int :=
  fun y x =>
    if y < e.height ∧ x < e.width ∧ e.matchMask y x = true then -1 else e.grid y x

/-- The table `private chainMultTable = [1, 2, 4, 8, 16, 32, 64]`. -/
def chainMultTable : List Nat := [1, 2, 4, 8, 16, 32, 64]

/-- The multiplier selection of `update`:
`chainCount - 1 < table.length ? table[chainCount - 1] : table[table.length - 1]`.
`update` only evaluates this with `chainCount ≥ 1` (the clearing phase is
entered from `swap` with `chainCount = max(chainCount, 1)` or from a
cascade with `chainCount + 1`). -/
def chainMult (chainCount : Nat) : Nat :=
  if chainCount - 1 < chainMultTable.length then chainMultTable.getD (chainCount - 1) 0
  else chainMultTable.getD (chainMultTable.length - 1) 0

/-- The `clearing` branch of `update`: run the countdown; at expiry clear
the masked tiles, and when any were cleared bump `matchesTotal`, add
`tilesCleared × chainMult(chainCount)` to the score, accumulate
`⌊tilesCleared / width⌋` lines-cleared-equivalent, possibly win on the
clear-line policy, otherwise add the chain-scaled rise pause and start
settling.  Particle spawning and the `onMatch` hook are cosmetic and not
modelled. -/
def Engine.clearingStep (e : Engine) (dtMs : ℚ) : Engine :=
  -- `this.clearTimerMs -= dtMs` happens first; fields other than the timer
  -- are unchanged by it, so the later reads below take them from `e`
  let e1 := { e with clearTimerMs := e.clearTimerMs - dtMs }
  if e.clearTimerMs - dtMs ≤ 0 then
    let tiles := e.tilesCleared
    let below := e.clearedBelowLine
    let e2 := { e1 with grid := e.clearedGrid }
    if 0 < tiles then
      let e3 := { e2 with
        matchesTotal := e.matchesTotal + 1
        score := e.score + tiles * chainMult e.chainCount }
      let lineEq := tiles / e.width
      let e4 :=
        if 0 < lineEq then { e3 with linesClearedEq := e.linesClearedEq + lineEq }
        else e3
      if e.targetLines ≤ e4.linesClearedEq ∧ below = true then
        { e4 with hasWon := true }
      else
        let add : ℚ := 1000 * 2 ^ (e.chainCount - 1)
        Engine.startSettlingAnimation
          { e4 with risePauseMs := e.risePauseMs + add, risePauseMaxMs := e.risePauseMs + add }
    else e2.startSettlingAnimation
  else e1

/-! ### Settling step and the win check -/

/-- The `anyAbove` search of the settle-completion win check: an occupied
cell whose whole bottom edge sits above the win-line screen position.  The
source hard-codes `cellPx = 48` here (not `this.cellSize`);
`winLineScreenY = height*48 + (totalLevelLines - rowsInserted)*48 - scrollOffsetPx`. -/
def Engine.winAnyAbove (e : Engine) : Bool :=
  decide (∃ y < e.height, ∃ x < e.width,
    0 ≤ e.grid y x ∧
      ((y : ℚ) * 48 - e.scrollOffsetPx) + 48 ≤
        (e.height : ℚ) * 48 + ((e.totalLevelLines : ℚ) - (e.rowsInserted : ℚ)) * 48
          - e.scrollOffsetPx)

/-- The tail of the `settling` branch once all pieces have landed: rescan;
a cascade re-enters `clearing` with a 200ms timer and a deeper chain,
otherwise the engine goes `idle`, resets the chain, and (when
`rowsInserted ≥ totalLevelLines`) wins if no occupied cell is above the
win line (`onWin` hook not modelled). -/
def Engine.afterSettleScan (e : Engine) : Engine :=
  -- the rescan and the win check read only fields that the mask/phase/chain
  -- writes below do not touch, so they are taken from `e`
  let scanRes := e.scanForMatches
  let e1 := { e with matchMask := scanRes.1 }
  if scanRes.2 then
    { e1 with
      phase := Phase.clearing
      clearTimerMs := 200
      chainCount := e.chainCount + 1 }
  else
    let e2 := { e1 with phase := Phase.idle, chainCount := 0 }
    if e.totalLevelLines ≤ e.rowsInserted then
      if e.winAnyAbove then e2 else { e2 with hasWon := true }
    else e2

/-- The `settling` branch of `update`: advance each airborne piece at its
own speed (clamped at its target row); if any is still short the tick ends,
otherwise every piece's color is written at its target cell, the piece list
empties and the post-settle scan runs. -/
def Engine.settlingStep (e : Engine) (dtMs : ℚ) : Engine :=
  if e.fallPieces.isEmpty then e.afterSettleScan
  else
    let pieces := e.fallPieces.map fun p =>
      if p.y < (p.toY : ℚ) then
        { p with
          y := min (p.y + (p.speedRowsPerSec.getD e.fallSpeedRowsPerSec) * dtMs / 1000)
            ((p.toY : ℚ)) }
      else p
    if pieces.all fun p => !decide (p.y < (p.toY : ℚ)) then
      Engine.afterSettleScan
        { e with
          grid := pieces.foldl
            (fun g p => fun y x => if y = p.toY ∧ x = p.x then p.color else g y x) e.grid
          fallPieces := [] }
    else { e with fallPieces := pieces }

/-! ### The per-tick update -/

/-- Method `update(dtMs)`: no-op once a terminal flag is set; otherwise tick the
rise pause down, (particle integration omitted: cosmetic), run the
scrolling block when idle/unpaused/moving — returning at once if it
signalled a loss — then the phase-specific branch. -/
def Engine.update (e : Engine) (dtMs : ℚ) : Engine :=
  if e.hasWon = true ∨ e.hasLost = true then e
  else
    let e1 :=
      if 0 < e.risePauseMs then { e with risePauseMs := max 0 (e.risePauseMs - dtMs) }
      else e
    let e2 :=
      if e1.phase = Phase.idle ∧ 0 < e1.scrollSpeedPxPerSec ∧ e1.risePauseMs ≤ 0 then
        e1.scrollStep dtMs
      else e1
    if e2.hasLost = true then e2
    else if e2.phase = Phase.clearing then e2.clearingStep dtMs
    else if e2.phase = Phase.settling then e2.settlingStep dtMs
    else e2

end CantStop

namespace CantStop

/-! ### Concrete instances used by witnesses and counterexamples -/

/-- A concrete grid with one horizontal run of three: row 0 is
`[2, 2, 2, -1]`, row 1 is `[-1, -1, -1, 7]`. -/
def witGrid : Nat → Nat → Int :=
  fun y x => if y = 0 ∧ x < 3 then 2 else if y = 1 ∧ x = 3 then 7 else -1

/-- Concrete clearing-expiry engine: a 3-cell mask on the bottom row. -/
def witClear3 : Engine :=
  { Engine.new 6 12 5 with
    phase := Phase.clearing
    clearTimerMs := 10
    chainCount := 1
    matchMask := fun y x => decide (y = 11 ∧ x < 3) }

/-- Concrete clearing-expiry engine: a full-bottom-row mask (width tiles). -/
def witClearRow : Engine :=
  { Engine.new 6 12 5 with
    phase := Phase.clearing
    clearTimerMs := 10
    chainCount := 1
    matchMask := fun y x => decide (y = 11 ∧ x < 6) }

/-- Concrete engine for the C5 witness: one occupied cell in the top row,
scroll offset close enough to a whole-cell crossing. -/
def witLoss : Engine :=
  { Engine.new 6 12 5 with
    grid := fun y x => if y = 0 ∧ x = 0 then 0 else -1
    scrollOffsetPx := 60 }

/-- Level rows (queue order, first row is inserted deepest) whose placement
fills the whole 6×12 grid with no matches; the default cursor sits at
`(2, 6)` and swapping there completes a vertical run of three in column 2.
Grid row `y` receives queue row `11 - y`. -/
def breachRows : List (List Int) :=
  [[3, 0, 1, 2, 3, 0],
   [2, 3, 0, 1, 2, 3],
   [1, 2, 3, 0, 1, 2],
   [0, 1, 2, 3, 0, 1],
   [3, 0, 4, 2, 3, 0],
   [2, 3, 0, 4, 2, 3],
   [1, 2, 4, 0, 1, 2],
   [0, 1, 2, 3, 0, 1],
   [3, 0, 1, 2, 3, 0],
   [2, 3, 0, 1, 2, 3],
   [1, 2, 3, 0, 1, 2],
   [0, 1, 2, 3, 0, 1]]

/-- A reachable state violating claim C4 as stated: fill the grid to the
top through `setLevelQueue`, then `swap()` at the default cursor creates a
match, entering the `clearing` phase with the top row occupied. -/
def eBreach : Engine :=
  ((Engine.new 6 12 5).setLevelQueue breachRows (some 12)).swap

/-- Candidate level rows on which the sanitizer's vertical pass creates a
fresh horizontal triple: with the first two rows in place, the third row's
leading `0` completes a vertical triple in column 0, and the repair picks
color 1 — which joins the two `1`s to its right into a `[1, 1, 1]` run
that the second pass never re-checks. -/
def sanRows : List (List Int) :=
  [[0, 3, 4, 2, 3, 4], [0, 2, 3, 4, 2, 3], [0, 1, 1, 2, 3, 4]]

/-- Fresh engine whose level queue is the sanitized form of `sanRows`
(nothing placed into the visible grid). -/
def eSan : Engine := (Engine.new 6 12 5).setLevelQueue sanRows none

/-- The state after dequeuing and inserting all three sanitized rows via
the bottom-row insertion used during automatic rising. -/
def eSan3 : Engine :=
  (((eSan.insertRowFromBottomFromQueue).2.insertRowFromBottomFromQueue).2.insertRowFromBottomFromQueue).2

/-- The cursor-bounds invariant of the spec:
`0 ≤ cursorX ≤ width − 2` and `0 ≤ cursorY ≤ height − 1`. -/
def cursorInv (e : Engine) : Prop :=
  0 ≤ e.cursorX ∧ e.cursorX ≤ (e.width : Int) - 2 ∧
  0 ≤ e.cursorY ∧ e.cursorY ≤ (e.height : Int) - 1

/-- Two engines agreeing on cursor and dimensions satisfy the same
cursor-bounds invariant. -/
def cursorFieldsEq (e' e : Engine) : Prop :=
  e'.cursorX = e.cursorX ∧ e'.cursorY = e.cursorY ∧
  e'.width = e.width ∧ e'.height = e.height

/-! ## Theorems -/

/-- All cells of a same-valued run segment share the first cell's value. -/
lemma runEq (f : Nat → Int) (a b : Nat)
    (H : ∀ k, a ≤ k → k + 1 ≤ b → 0 ≤ f k ∧ f k = f (k + 1)) :
    ∀ j, a ≤ j → j ≤ b → f j = f a := by
  intro j
  induction j with
  | zero =>
    intro ha _
    have h0 : a = 0 := Nat.le_zero.mp ha
    rw [h0]
  | succ j ih =>
    intro haj hjb
    rcases Nat.eq_or_lt_of_le haj with h | h
    · rw [← h]
    · have h1 : a ≤ j := by omega
      have h2 := H j h1 (by omega)
      rw [← h2.2]
      exact ih h1 (by omega)

/-- Loop-invariant proof for the run-detection loop of `scanForMatches`:
under the stated invariants, the final mask marks exactly the cells lying
in some length-3 window of equal non-empty values, and the final `found`
flag is set exactly when some cell is marked. -/
lemma lineScanGo_spec (f : Nat → Int) (n : Nat) (fuel x runStart : Nat)
    (mask : Nat → Bool) (found : Bool)
    (hfx : x + fuel = n + 1) (hx1 : 1 ≤ x) (hrx : runStart < x)
    (hxn : x ≤ n ∨ runStart = n)
    (hrun : ∀ k, runStart ≤ k → k + 1 < x → 0 ≤ f k ∧ f k = f (k + 1))
    (hbreak : runStart = 0 ∨ n < x ∨
      ¬(0 ≤ f (runStart - 1) ∧ 0 ≤ f runStart ∧ f (runStart - 1) = f runStart))
    (hsound : ∀ k, mask k = true → k < runStart ∧ inWindow f n k)
    (hcomp : ∀ k s, s ≤ k → k ≤ s + 2 → s + 2 < runStart → 0 ≤ f s →
      f s = f (s + 1) → f (s + 1) = f (s + 2) → mask k = true)
    (hfound : found = true ↔ ∃ k, mask k = true) :
    (∀ k, (lineScanGo f n fuel x runStart mask found).1 k = true ↔ inWindow f n k) ∧
    ((lineScanGo f n fuel x runStart mask found).2 = true ↔
      ∃ k, (lineScanGo f n fuel x runStart mask found).1 k = true) := by
  induction fuel generalizing x runStart mask found with
  | zero =>
    have hxeq : x = n + 1 := by omega
    have hrn : runStart = n := by
      rcases hxn with h | h
      · omega
      · exact h
    simp only [lineScanGo]
    refine ⟨fun k => ⟨fun hm => (hsound k hm).2, ?_⟩, hfound⟩
    rintro ⟨s, hs1, hs2, hs3, hs4, hs5, hs6⟩
    exact hcomp k s hs2 hs3 (by omega) hs4 hs5 hs6
  | succ fuel ih =>
    have hxle : x ≤ n := by omega
    simp only [lineScanGo]
    by_cases hsame : x < n ∧ 0 ≤ f (x - 1) ∧ 0 ≤ f x ∧ f (x - 1) = f x
    · rw [if_pos hsame]
      refine ih (x + 1) runStart mask found (by omega) (by omega) (by omega)
        (Or.inl (by omega)) ?_ ?_ hsound hcomp hfound
      · intro k hk hklt
        rcases Nat.lt_or_ge (k + 1) x with h | h
        · exact hrun k hk h
        · have hkx : k + 1 = x := by omega
          have h1 : x - 1 = k := by omega
          refine ⟨?_, ?_⟩
          · have := hsame.2.1; rwa [h1] at this
          · have := hsame.2.2.2; rwa [h1, ← hkx] at this
      · rcases hbreak with h | h | h
        · exact Or.inl h
        · exact Or.inr (Or.inl (by omega))
        · exact Or.inr (Or.inr h)
    · rw [if_neg hsame]
      -- the run [runStart, x) has ended at x
      have hnewbreak : x = 0 ∨ n < x + 1 ∨
          ¬(0 ≤ f (x - 1) ∧ 0 ≤ f x ∧ f (x - 1) = f x) := by
        rcases Nat.lt_or_ge x n with hxn' | hxn'
        · exact Or.inr (Or.inr (fun hc => hsame ⟨hxn', hc⟩))
        · exact Or.inr (Or.inl (by omega))
      by_cases hmark : 0 ≤ f (x - 1) ∧ 3 ≤ x - runStart
      · rw [if_pos hmark]
        refine ih (x + 1) x _ true (by omega) (by omega) (by omega)
          (by omega) ?_ hnewbreak ?_ ?_ ?_
        · intro k hk hklt
          exact absurd (And.intro hk hklt) (by omega)
        · -- soundness of the extended mask
          intro k hk
          simp only [Bool.or_eq_true, Bool.and_eq_true, decide_eq_true_eq] at hk
          rcases hk with hk | ⟨hk1, hk2⟩
          · have := hsound k hk
            exact ⟨by omega, this.2⟩
          · refine ⟨hk2, ?_⟩
            have hlen : runStart + 3 ≤ x := by omega
            have hs1 : runStart ≤ min k (x - 3) := by omega
            have p1 := hrun (min k (x - 3)) (by omega) (by omega)
            have p2 := hrun (min k (x - 3) + 1) (by omega) (by omega)
            exact ⟨min k (x - 3), by omega, by omega, by omega, p1.1, p1.2, p2.2⟩
        · -- completeness of the extended mask
          intro k s hs1 hs2 hs3 h4 h5 h6
          simp only [Bool.or_eq_true, Bool.and_eq_true, decide_eq_true_eq]
          by_cases hcase : s + 2 < runStart
          · exact Or.inl (hcomp k s hs1 hs2 hcase h4 h5 h6)
          · -- a window reaching into the live run cannot cross its left edge
            have hrs : runStart ≤ s := by
              by_contra hcon
              have hsplit : runStart - 1 = s ∨ runStart - 1 = s + 1 := by omega
              rcases hbreak with hb | hb | hb
              · omega
              · omega
              · rcases hsplit with he | he
                · refine hb ?_
                  have h2 : runStart = s + 1 := by omega
                  rw [he, h2]
                  exact ⟨h4, by rw [← h5]; exact h4, h5⟩
                · refine hb ?_
                  have h2 : runStart = s + 2 := by omega
                  rw [he, h2]
                  exact ⟨by rw [← h5]; exact h4, by rw [← h6, ← h5]; exact h4, h6⟩
            exact Or.inr ⟨by omega, by omega⟩
        · constructor
          · intro _
            refine ⟨runStart, ?_⟩
            simp only [Bool.or_eq_true, Bool.and_eq_true, decide_eq_true_eq]
            exact Or.inr ⟨le_refl _, by omega⟩
          · intro _; rfl
      · rw [if_neg hmark]
        refine ih (x + 1) x mask found (by omega) (by omega) (by omega)
          (by omega) ?_ hnewbreak ?_ ?_ hfound
        · intro k hk hklt
          exact absurd (And.intro hk hklt) (by omega)
        · intro k hk
          have := hsound k hk
          exact ⟨by omega, this.2⟩
        · intro k s hs1 hs2 hs3 h4 h5 h6
          by_cases hcase : s + 2 < runStart
          · exact hcomp k s hs1 hs2 hcase h4 h5 h6
          · exfalso
            -- as above the window sits inside the ended run, so the run had
            -- length ≥ 3 and a non-empty last cell: contradiction with ¬hmark
            have hrs : runStart ≤ s := by
              by_contra hcon
              have hsplit : runStart - 1 = s ∨ runStart - 1 = s + 1 := by omega
              rcases hbreak with hb | hb | hb
              · omega
              · omega
              · rcases hsplit with he | he
                · refine hb ?_
                  have h2 : runStart = s + 1 := by omega
                  rw [he, h2]
                  exact ⟨h4, by rw [← h5]; exact h4, h5⟩
                · refine hb ?_
                  have h2 : runStart = s + 2 := by omega
                  rw [he, h2]
                  exact ⟨by rw [← h5]; exact h4, by rw [← h6, ← h5]; exact h4, h6⟩
            have hlast : 0 ≤ f (x - 1) := by
              rcases Nat.lt_or_ge (s + 2) (x - 1) with hc | hc
              · have := hrun (x - 2) (by omega) (by omega)
                have h1 : x - 2 + 1 = x - 1 := by omega
                rw [h1] at this
                rw [← this.2]
                exact this.1
              · have he : s + 2 = x - 1 := by omega
                rw [← he]
                rw [← h6, ← h5]; exact h4
            exact hmark ⟨hlast, by omega⟩

/-- Correctness of a full line scan: the mask marks exactly the cells in a
run of ≥ 3 adjacent equal non-empty values, and `found` is set exactly when
some cell is marked. -/
lemma lineScan_spec (f : Nat → Int) (n : Nat) :
    (∀ k, (lineScan f n).1 k = true ↔ inWindow f n k) ∧
    ((lineScan f n).2 = true ↔ ∃ k, (lineScan f n).1 k = true) := by
  unfold lineScan
  refine lineScanGo_spec f n n 1 0 (fun _ => false) false (by omega) (le_refl 1)
    (by omega) (by omega) ?_ (Or.inl rfl) ?_ ?_ ?_
  · intro k hk hklt; omega
  · intro k hk; exact absurd hk (by simp)
  · intro k s _ _ hs3 _ _ _; omega
  · simp

/-- A marked cell of a line is inside the line. -/
lemma lineScan_mark_lt (f : Nat → Int) (n k : Nat)
    (h : (lineScan f n).1 k = true) : k < n := by
  have hw := ((lineScan_spec f n).1 k).mp h
  rcases hw with ⟨s, hs1, _, hs3, _⟩
  omega

/-- Claim C1: after `scanForMatches` runs on a grid, the match mask is true
at `(x, y)` if and only if the cell belongs to a horizontal or vertical run
of three or more adjacent equal non-empty values (the horizontal and
vertical passes are OR'd; empty cells never start or continue a run), and
the returned flag is true exactly when at least one cell is marked. -/
theorem scanForMatches_spec (g : Nat → Nat → Int) (w h y x : Nat)
    (_hy : y < h) (_hx : x < w) :
    ((scanGrid g w h).1 y x = true ↔
      inWindow (fun i => g y i) w x ∨ inWindow (fun j => g j x) h y) ∧
    ((scanGrid g w h).2 = true ↔
      ∃ y' < h, ∃ x' < w, (scanGrid g w h).1 y' x' = true) := by
  constructor
  · show ((lineScan (fun i => g y i) w).1 x || (lineScan (fun j => g j x) h).1 y) = true ↔ _
    rw [Bool.or_eq_true]
    rw [(lineScan_spec (fun i => g y i) w).1 x, (lineScan_spec (fun j => g j x) h).1 y]
  · constructor
    · intro hf
      have hf2 : (((List.range h).any fun y' => (lineScan (fun i => g y' i) w).2) ||
          ((List.range w).any fun x' => (lineScan (fun j => g j x') h).2)) = true := hf
      have hf' : ((List.range h).any fun y' => (lineScan (fun i => g y' i) w).2) = true ∨
          ((List.range w).any fun x' => (lineScan (fun j => g j x') h).2) = true := by
        rcases Bool.or_eq_true_iff.mp hf2 with h1 | h2
        · exact Or.inl h1
        · exact Or.inr h2
      rcases hf' with hrow | hcol
      · rcases List.any_eq_true.mp hrow with ⟨y', hy'mem, hy'2⟩
        have hy' : y' < h := List.mem_range.mp hy'mem
        rcases ((lineScan_spec (fun i => g y' i) w).2).mp hy'2 with ⟨k, hk⟩
        have hkw : k < w := lineScan_mark_lt _ _ _ hk
        refine ⟨y', hy', k, hkw, ?_⟩
        show ((lineScan (fun i => g y' i) w).1 k || (lineScan (fun j => g j k) h).1 y') = true
        simp [hk]
      · rcases List.any_eq_true.mp hcol with ⟨x', hx'mem, hx'2⟩
        have hx' : x' < w := List.mem_range.mp hx'mem
        rcases ((lineScan_spec (fun j => g j x') h).2).mp hx'2 with ⟨k, hk⟩
        have hkh : k < h := lineScan_mark_lt _ _ _ hk
        refine ⟨k, hkh, x', hx', ?_⟩
        show ((lineScan (fun i => g k i) w).1 x' || (lineScan (fun j => g j x') h).1 k) = true
        simp [hk]
    · rintro ⟨y', hy', x', hx', hm⟩
      have hm2 : ((lineScan (fun i => g y' i) w).1 x' ||
          (lineScan (fun j => g j x') h).1 y') = true := hm
      have hm' : (lineScan (fun i => g y' i) w).1 x' = true ∨
          (lineScan (fun j => g j x') h).1 y' = true := by
        rcases Bool.or_eq_true_iff.mp hm2 with h1 | h2
        · exact Or.inl h1
        · exact Or.inr h2
      show (((List.range h).any fun y' => (lineScan (fun i => g y' i) w).2) ||
        ((List.range w).any fun x' => (lineScan (fun j => g j x') h).2)) = true
      rcases hm' with hrow | hcol
      · have hany : ((List.range h).any fun y'' => (lineScan (fun i => g y'' i) w).2) = true :=
          List.any_eq_true.mpr ⟨y', List.mem_range.mpr hy',
            ((lineScan_spec (fun i => g y' i) w).2).mpr ⟨x', hrow⟩⟩
        simp [hany]
      · have hany : ((List.range w).any fun x'' => (lineScan (fun j => g j x'') h).2) = true :=
          List.any_eq_true.mpr ⟨x', List.mem_range.mpr hx',
            ((lineScan_spec (fun j => g j x') h).2).mpr ⟨y', hcol⟩⟩
        simp [hany]

/-- Witness for `scanForMatches_spec` at a concrete grid and cell. -/
theorem scanForMatches_spec_witness :
    (0 < 2 ∧ 1 < 4) ∧
    (((scanGrid witGrid 4 2).1 0 1 = true ↔
      inWindow (fun i => witGrid 0 i) 4 1 ∨ inWindow (fun j => witGrid j 1) 2 0) ∧
    ((scanGrid witGrid 4 2).2 = true ↔
      ∃ y' < 2, ∃ x' < 4, (scanGrid witGrid 4 2).1 y' x' = true)) :=
  ⟨⟨by decide, by decide⟩, scanForMatches_spec witGrid 4 2 0 1 (by decide) (by decide)⟩

/-- Claim C2: while idle with no terminal flag and not both cursor cells
empty, `swap()` exchanges `grid[cursorY][cursorX]` and
`grid[cursorY][cursorX+1]`, then enters `clearing` with
`chainCount = max(chainCount, 1)` when the post-swap grid contains a
match, else enters `settling` when either swapped value was empty, else
stays `idle`; when the phase is not idle, a terminal flag is set, or both
cursor cells are empty, `swap()` changes nothing. -/
theorem swap_spec (e : Engine) :
    ((e.phase ≠ Phase.idle ∨ e.hasWon = true ∨ e.hasLost = true) → e.swap = e) ∧
    (e.phase = Phase.idle → e.hasWon = false → e.hasLost = false →
      e.grid e.cursorY.toNat e.cursorX.toNat < 0 →
      e.grid e.cursorY.toNat (e.cursorX.toNat + 1) < 0 → e.swap = e) ∧
    (e.phase = Phase.idle → e.hasWon = false → e.hasLost = false →
      ¬(e.grid e.cursorY.toNat e.cursorX.toNat < 0 ∧
        e.grid e.cursorY.toNat (e.cursorX.toNat + 1) < 0) →
      (((scanGrid e.swappedGrid e.width e.height).2 = true →
          e.swap = { e with
            grid := e.swappedGrid
            matchMask := (scanGrid e.swappedGrid e.width e.height).1
            phase := Phase.clearing
            clearTimerMs := 230
            chainCount := max e.chainCount 1 }) ∧
        ((scanGrid e.swappedGrid e.width e.height).2 = false →
          (e.grid e.cursorY.toNat e.cursorX.toNat < 0 ∨
            e.grid e.cursorY.toNat (e.cursorX.toNat + 1) < 0) →
          e.swap = Engine.startSettlingAnimation { e with
            grid := e.swappedGrid
            matchMask := (scanGrid e.swappedGrid e.width e.height).1 } ∧
          e.swap.phase = Phase.settling) ∧
        ((scanGrid e.swappedGrid e.width e.height).2 = false →
          0 ≤ e.grid e.cursorY.toNat e.cursorX.toNat →
          0 ≤ e.grid e.cursorY.toNat (e.cursorX.toNat + 1) →
          e.swap = { e with
            grid := e.swappedGrid
            matchMask := (scanGrid e.swappedGrid e.width e.height).1 } ∧
          e.swap.phase = Phase.idle))) := by
  refine ⟨?_, ?_, ?_⟩
  · intro h
    simp only [Engine.swap]
    rw [if_pos h]
  · intro h1 h2 h3 ha hb
    simp only [Engine.swap]
    rw [if_neg (by simp [h1, h2, h3]), if_pos ⟨ha, hb⟩]
  · intro h1 h2 h3 hne
    have hgate : ¬(e.phase ≠ Phase.idle ∨ e.hasWon = true ∨ e.hasLost = true) := by
      simp [h1, h2, h3]
    refine ⟨?_, ?_, ?_⟩
    · intro hscan
      simp only [Engine.swap]
      rw [if_neg hgate, if_neg hne]
      have hs : (Engine.scanForMatches { e with grid := e.swappedGrid }).2 = true := hscan
      rw [if_pos hs]
      rfl
    · intro hscan hor
      have hs : (Engine.scanForMatches { e with grid := e.swappedGrid }).2 = false := hscan
      constructor
      · simp only [Engine.swap]
        rw [if_neg hgate, if_neg hne, hs]
        simp only [Bool.false_eq_true, if_false]
        rw [if_pos hor]
        rfl
      · simp only [Engine.swap]
        rw [if_neg hgate, if_neg hne, hs]
        simp only [Bool.false_eq_true, if_false]
        rw [if_pos hor]
        rfl
    · intro hscan ha hb
      have hs : (Engine.scanForMatches { e with grid := e.swappedGrid }).2 = false := hscan
      have hnor : ¬(e.grid e.cursorY.toNat e.cursorX.toNat < 0 ∨
          e.grid e.cursorY.toNat (e.cursorX.toNat + 1) < 0) := by
        push_neg
        exact ⟨ha, hb⟩
      constructor
      · simp only [Engine.swap]
        rw [if_neg hgate, if_neg hne, hs]
        simp only [Bool.false_eq_true, if_false]
        rw [if_neg hnor]
        rfl
      · simp only [Engine.swap]
        rw [if_neg hgate, if_neg hne, hs]
        simp only [Bool.false_eq_true, if_false]
        rw [if_neg hnor]
        exact h1

/-- Witness for `swap_spec`: on a freshly constructed engine every cell is
empty, so `swap()` at the cursor changes nothing. -/
theorem swap_spec_witness : (Engine.new 6 12 5).swap = Engine.new 6 12 5 :=
  (swap_spec (Engine.new 6 12 5)).2.1 rfl rfl rfl (by decide) (by decide)

/-- Lemma group: `startSettlingAnimation` only touches grid, fall pieces and phase. -/
lemma startSettling_score (e : Engine) : e.startSettlingAnimation.score = e.score := rfl

lemma startSettling_linesClearedEq (e : Engine) :
    e.startSettlingAnimation.linesClearedEq = e.linesClearedEq := rfl

lemma startSettling_hasWon (e : Engine) : e.startSettlingAnimation.hasWon = e.hasWon := rfl

lemma startSettling_hasLost (e : Engine) : e.startSettlingAnimation.hasLost = e.hasLost := rfl

lemma startSettling_cursorX (e : Engine) : e.startSettlingAnimation.cursorX = e.cursorX := rfl

lemma startSettling_cursorY (e : Engine) : e.startSettlingAnimation.cursorY = e.cursorY := rfl

lemma startSettling_width (e : Engine) : e.startSettlingAnimation.width = e.width := rfl

lemma startSettling_height (e : Engine) : e.startSettlingAnimation.height = e.height := rfl

lemma startSettling_phase (e : Engine) : e.startSettlingAnimation.phase = Phase.settling := rfl

/-- At a clearing expiry with cleared tiles, the score gains
`tilesCleared * chainMult chainCount` and the lines-cleared-equivalent
counter gains `⌊tilesCleared / width⌋`, whatever later branch is taken. -/
lemma clearingStep_expiry (e : Engine) (dtMs : ℚ)
    (hexp : e.clearTimerMs - dtMs ≤ 0) (htiles : 0 < e.tilesCleared) :
    (e.clearingStep dtMs).score = e.score + e.tilesCleared * chainMult e.chainCount ∧
    (e.clearingStep dtMs).linesClearedEq = e.linesClearedEq + e.tilesCleared / e.width := by
  simp only [Engine.clearingStep]
  rw [if_pos hexp, if_pos htiles]
  by_cases hq : 0 < e.tilesCleared / e.width
  · rw [if_pos hq]
    by_cases hwin : e.targetLines ≤ e.linesClearedEq + e.tilesCleared / e.width ∧
        e.clearedBelowLine = true
    · rw [if_pos hwin]
      exact ⟨rfl, rfl⟩
    · rw [if_neg hwin]
      exact ⟨rfl, rfl⟩
  · rw [if_neg hq]
    have hz : e.tilesCleared / e.width = 0 := Nat.eq_zero_of_not_pos hq
    by_cases hwin : e.targetLines ≤ e.linesClearedEq ∧ e.clearedBelowLine = true
    · rw [if_pos hwin]
      exact ⟨rfl, by simp [hz]⟩
    · rw [if_neg hwin]
      exact ⟨rfl, by simp [startSettling_linesClearedEq, hz]⟩

/-- While clearing with no terminal flag, a tick routes to `clearingStep`
(after the rise-pause decrement, which touches no other field). -/
lemma update_clearing_route (e : Engine) (dtMs : ℚ)
    (hwon : e.hasWon = false) (hlost : e.hasLost = false)
    (hphase : e.phase = Phase.clearing) :
    e.update dtMs =
      (if 0 < e.risePauseMs then { e with risePauseMs := max 0 (e.risePauseMs - dtMs) }
       else e).clearingStep dtMs := by
  simp only [Engine.update]
  split_ifs <;> first | rfl | (exfalso; simp_all)

/-- While settling with no terminal flag, a tick routes to `settlingStep`. -/
lemma update_settling_route (e : Engine) (dtMs : ℚ)
    (hwon : e.hasWon = false) (hlost : e.hasLost = false)
    (hphase : e.phase = Phase.settling) :
    e.update dtMs =
      (if 0 < e.risePauseMs then { e with risePauseMs := max 0 (e.risePauseMs - dtMs) }
       else e).settlingStep dtMs := by
  simp only [Engine.update]
  split_ifs <;> first | rfl | (exfalso; simp_all)

/-- The settle-completion branch: with no cascade found, the engine goes
idle with chain 0 and wins exactly when the rising win line has been
reached and no occupied cell sits above it. -/
lemma afterSettleScan_spec (e : Engine) (hwon : e.hasWon = false)
    (hnoc : (scanGrid e.grid e.width e.height).2 = false) :
    e.afterSettleScan.phase = Phase.idle ∧ e.afterSettleScan.chainCount = 0 ∧
    (e.afterSettleScan.hasWon = true ↔
      (e.totalLevelLines ≤ e.rowsInserted ∧ e.winAnyAbove = false)) := by
  simp only [Engine.afterSettleScan]
  have hs : (e.scanForMatches).2 = false := hnoc
  rw [hs]
  simp only [Bool.false_eq_true, if_false]
  by_cases htot : e.totalLevelLines ≤ e.rowsInserted
  · rw [if_pos htot]
    by_cases hab : e.winAnyAbove = true
    · rw [if_pos hab]
      refine ⟨rfl, rfl, ?_⟩
      simp [hwon, hab]
    · rw [if_neg hab]
      rw [Bool.not_eq_true] at hab
      refine ⟨rfl, rfl, ?_⟩
      simp [htot, hab]
  · rw [if_neg htot]
    refine ⟨rfl, rfl, ?_⟩
    simp [hwon, htot]

/-- Claim C6: when a settle completes with no cascade matches (the phase
transitions back to idle), `hasWon` becomes true exactly when
`rowsInserted ≥ totalLevelLines` and no occupied cell remains with its
bottom edge above the computed win-line screen position; otherwise that
transition leaves `hasWon` unchanged (false). -/
theorem settle_win_spec (e : Engine) (dtMs : ℚ)
    (hwon : e.hasWon = false) (hlost : e.hasLost = false)
    (hphase : e.phase = Phase.settling)
    (hpieces : e.fallPieces = [])
    (hnoc : (scanGrid e.grid e.width e.height).2 = false) :
    (e.update dtMs).phase = Phase.idle ∧
    (e.update dtMs).chainCount = 0 ∧
    ((e.update dtMs).hasWon = true ↔
      (e.totalLevelLines ≤ e.rowsInserted ∧ e.winAnyAbove = false)) := by
  rw [update_settling_route e dtMs hwon hlost hphase]
  by_cases hp : 0 < e.risePauseMs
  · rw [if_pos hp]
    have hroute : Engine.settlingStep
        { e with risePauseMs := max 0 (e.risePauseMs - dtMs) } dtMs =
        Engine.afterSettleScan { e with risePauseMs := max 0 (e.risePauseMs - dtMs) } := by
      simp only [Engine.settlingStep]
      rw [if_pos (by simp [hpieces])]
    rw [hroute]
    exact afterSettleScan_spec { e with risePauseMs := max 0 (e.risePauseMs - dtMs) }
      hwon hnoc
  · rw [if_neg hp]
    have hroute : e.settlingStep dtMs = e.afterSettleScan := by
      simp only [Engine.settlingStep]
      rw [if_pos (by simp [hpieces])]
    rw [hroute]
    exact afterSettleScan_spec e hwon hnoc

/-- Witness for `settle_win_spec`: a fresh engine forced into `settling`
with no pieces: the empty grid has no cascade, `rowsInserted = 0 ≥
totalLevelLines = 0` and no occupied cell exists, so the tick wins. -/
theorem settle_win_spec_witness :
    (({ Engine.new 6 12 5 with phase := Phase.settling } : Engine).update 16).phase
        = Phase.idle ∧
    (({ Engine.new 6 12 5 with phase := Phase.settling } : Engine).update 16).chainCount = 0 ∧
    ((({ Engine.new 6 12 5 with phase := Phase.settling } : Engine).update 16).hasWon = true ↔
      (({ Engine.new 6 12 5 with phase := Phase.settling } : Engine).totalLevelLines ≤
          ({ Engine.new 6 12 5 with phase := Phase.settling } : Engine).rowsInserted ∧
        ({ Engine.new 6 12 5 with phase := Phase.settling } : Engine).winAnyAbove = false)) :=
  settle_win_spec { Engine.new 6 12 5 with phase := Phase.settling } 16
    rfl rfl rfl rfl (by decide)

/-- Claim C7: a clearing-phase expiry with `tilesCleared > 0` adds exactly
`tilesCleared × chainMult chainCount` to the score, where the multiplier is
1, 2, 4, 8, 16, 32, 64 for chain depths 1–7 and stays 64 for every deeper
chain (depth 20 equals depth 7). -/
theorem clear_score_spec (e : Engine) (dtMs : ℚ)
    (hwon : e.hasWon = false) (hlost : e.hasLost = false)
    (hphase : e.phase = Phase.clearing)
    (hexp : e.clearTimerMs - dtMs ≤ 0)
    (htiles : 0 < e.tilesCleared) :
    (e.update dtMs).score = e.score + e.tilesCleared * chainMult e.chainCount ∧
    chainMult 1 = 1 ∧ chainMult 2 = 2 ∧ chainMult 3 = 4 ∧ chainMult 4 = 8 ∧
    chainMult 5 = 16 ∧ chainMult 6 = 32 ∧ chainMult 7 = 64 ∧
    (∀ d, 7 ≤ d → chainMult d = 64) ∧ chainMult 20 = chainMult 7 := by
  refine ⟨?_, by decide, by decide, by decide, by decide, by decide, by decide,
    by decide, ?_, by decide⟩
  · rw [update_clearing_route e dtMs hwon hlost hphase]
    by_cases hp : 0 < e.risePauseMs
    · rw [if_pos hp]
      exact (clearingStep_expiry { e with risePauseMs := max 0 (e.risePauseMs - dtMs) }
        dtMs hexp htiles).1
    · rw [if_neg hp]
      exact (clearingStep_expiry e dtMs hexp htiles).1
  · intro d hd
    rcases Nat.lt_or_ge d 8 with h8 | h8
    · have hd7 : d = 7 := by omega
      subst hd7; rfl
    · have hlen : ¬(d - 1 < chainMultTable.length) := by
        simp only [chainMultTable, List.length_cons, List.length_nil]
        omega
      unfold chainMult
      rw [if_neg hlen]
      rfl

/-- Witness for `clear_score_spec` at a concrete clearing expiry. -/
theorem clear_score_spec_witness :
    (witClear3.update 16).score =
      witClear3.score + witClear3.tilesCleared * chainMult witClear3.chainCount ∧
    chainMult 1 = 1 ∧ chainMult 2 = 2 ∧ chainMult 3 = 4 ∧ chainMult 4 = 8 ∧
    chainMult 5 = 16 ∧ chainMult 6 = 32 ∧ chainMult 7 = 64 ∧
    (∀ d, 7 ≤ d → chainMult d = 64) ∧ chainMult 20 = chainMult 7 :=
  clear_score_spec witClear3 16 rfl rfl rfl (by norm_num [witClear3]) (by decide)

/-- Claim C8: every clearing expiry adds exactly
`⌊tilesCleared / width⌋` to `linesClearedEq`; in particular clearing
`width − 1` tiles adds 0 and clearing `width` tiles adds exactly 1. -/
theorem clear_linesEq_spec (e : Engine) (dtMs : ℚ)
    (hwon : e.hasWon = false) (hlost : e.hasLost = false)
    (hphase : e.phase = Phase.clearing)
    (hexp : e.clearTimerMs - dtMs ≤ 0)
    (htiles : 0 < e.tilesCleared) (hw : 0 < e.width) :
    (e.update dtMs).linesClearedEq = e.linesClearedEq + e.tilesCleared / e.width ∧
    (e.tilesCleared = e.width - 1 →
      (e.update dtMs).linesClearedEq = e.linesClearedEq) ∧
    (e.tilesCleared = e.width →
      (e.update dtMs).linesClearedEq = e.linesClearedEq + 1) := by
  have hmain : (e.update dtMs).linesClearedEq
      = e.linesClearedEq + e.tilesCleared / e.width := by
    rw [update_clearing_route e dtMs hwon hlost hphase]
    by_cases hp : 0 < e.risePauseMs
    · rw [if_pos hp]
      exact (clearingStep_expiry { e with risePauseMs := max 0 (e.risePauseMs - dtMs) }
        dtMs hexp htiles).2
    · rw [if_neg hp]
      exact (clearingStep_expiry e dtMs hexp htiles).2
  refine ⟨hmain, ?_, ?_⟩
  · intro hteq
    rw [hmain, hteq]
    have : (e.width - 1) / e.width = 0 := Nat.div_eq_of_lt (by omega)
    omega
  · intro hteq
    rw [hmain, hteq, Nat.div_self hw]

/-- Witness for `clear_linesEq_spec`: clearing exactly `width` tiles. -/
theorem clear_linesEq_spec_witness :
    (witClearRow.update 16).linesClearedEq =
      witClearRow.linesClearedEq + witClearRow.tilesCleared / witClearRow.width ∧
    (witClearRow.tilesCleared = witClearRow.width - 1 →
      (witClearRow.update 16).linesClearedEq = witClearRow.linesClearedEq) ∧
    (witClearRow.tilesCleared = witClearRow.width →
      (witClearRow.update 16).linesClearedEq = witClearRow.linesClearedEq + 1) :=
  clear_linesEq_spec witClearRow 16 rfl rfl rfl (by norm_num [witClearRow]) (by decide) (by decide)

/-- Once a terminal flag is set, `update` is a no-op. -/
lemma update_terminal (e : Engine) (dtMs : ℚ)
    (h : e.hasWon = true ∨ e.hasLost = true) : e.update dtMs = e := by
  simp only [Engine.update]
  rw [if_pos h]

/-- Claim C5: when a whole-cell scroll crossing triggers an automatic row
insertion while the top visible row is occupied, the insertion is aborted
atomically (grid, queue, rows-inserted count and cursor unchanged; only
the already-consumed scroll offset moved) and `hasLost` is set; afterwards
every `update` call returns immediately without changing anything. -/
theorem insert_abort_loss_spec (e : Engine) (dtMs : ℚ)
    (hwon : e.hasWon = false) (hlost : e.hasLost = false)
    (hphase : e.phase = Phase.idle)
    (hspeed : 0 < e.scrollSpeedPxPerSec)
    (hpause : e.risePauseMs ≤ 0)
    (hocc : ∃ x < e.width, 0 ≤ e.grid 0 x)
    (hcross : e.cellSize ≤ e.scrollOffsetPx + e.scrollSpeedPxPerSec * dtMs / 1000) :
    e.insertRowFromBottomFromQueue = (true, e) ∧
    e.update dtMs = { e with
      scrollOffsetPx := e.scrollOffsetPx + e.scrollSpeedPxPerSec * dtMs / 1000 - e.cellSize
      hasLost := true } ∧
    (∀ e' : Engine, ∀ dt' : ℚ, e'.hasLost = true → e'.update dt' = e') := by
  refine ⟨?_, ?_, fun e' dt' h' => update_terminal e' dt' (Or.inr h')⟩
  · simp only [Engine.insertRowFromBottomFromQueue]
    rw [if_pos hocc]
  · simp only [Engine.update]
    have hcond : e.phase = Phase.idle ∧ 0 < e.scrollSpeedPxPerSec ∧ e.risePauseMs ≤ 0 :=
      ⟨hphase, hspeed, hpause⟩
    rw [if_neg (by simp [hwon, hlost]), if_neg (not_lt.mpr hpause), if_pos hcond]
    simp only [Engine.scrollStep, Engine.consumeRows, Engine.insertRowFromBottomFromQueue]
    rw [if_pos hcross, if_pos hocc]
    simp [hlost]

/-- Witness for `insert_abort_loss_spec` at a concrete crossing tick. -/
theorem insert_abort_loss_spec_witness :
    witLoss.insertRowFromBottomFromQueue = (true, witLoss) ∧
    witLoss.update 200 = { witLoss with
      scrollOffsetPx := witLoss.scrollOffsetPx + witLoss.scrollSpeedPxPerSec * 200 / 1000
        - witLoss.cellSize
      hasLost := true } ∧
    (∀ e' : Engine, ∀ dt' : ℚ, e'.hasLost = true → e'.update dt' = e') := by
  refine insert_abort_loss_spec witLoss 200 rfl rfl rfl ?_ ?_ ?_ ?_
  · show (0 : ℚ) < 24
    norm_num
  · show (0 : ℚ) ≤ 0
    norm_num
  · exact ⟨0, by norm_num [witLoss, Engine.new], le_refl 0⟩
  · show (64 : ℚ) ≤ 60 + 24 * 200 / 1000
    norm_num

/-! The preservation lemmas below track that the scrolling machinery never
changes the phase (needed to route an idle tick through `update`). -/

lemma insertRow_phase (e : Engine) :
    (e.insertRowFromBottomFromQueue).2.phase = e.phase := by
  simp only [Engine.insertRowFromBottomFromQueue]
  split_ifs <;> rfl

lemma consumeRows_phase (fuel : Nat) : ∀ e : Engine,
    (e.consumeRows fuel).phase = e.phase := by
  induction fuel with
  | zero => intro e; rfl
  | succ n ih =>
    intro e
    simp only [Engine.consumeRows]
    split_ifs with h1 h2
    · exact insertRow_phase _
    · rw [ih]
      exact insertRow_phase _
    · rfl

lemma scrollStep_phase (e : Engine) (dtMs : ℚ) :
    (e.scrollStep dtMs).phase = e.phase := by
  simp only [Engine.scrollStep]
  split_ifs with h1 h2
  · exact consumeRows_phase _ _
  · exact consumeRows_phase _ _
  · exact consumeRows_phase _ _

/-- An idle, unpaused, scrolling tick is exactly the scrolling block. -/
lemma update_idle_route (e : Engine) (dtMs : ℚ)
    (hwon : e.hasWon = false) (hlost : e.hasLost = false)
    (hphase : e.phase = Phase.idle)
    (hspeed : 0 < e.scrollSpeedPxPerSec)
    (hpause : e.risePauseMs ≤ 0) :
    e.update dtMs = e.scrollStep dtMs := by
  simp only [Engine.update]
  rw [if_neg (by simp [hwon, hlost]), if_neg (not_lt.mpr hpause),
    if_pos (show e.phase = Phase.idle ∧ 0 < e.scrollSpeedPxPerSec ∧ e.risePauseMs ≤ 0
      from ⟨hphase, hspeed, hpause⟩)]
  by_cases hL : (e.scrollStep dtMs).hasLost = true
  · rw [if_pos hL]
  · rw [if_neg hL]
    have hph : (e.scrollStep dtMs).phase = e.phase := scrollStep_phase e dtMs
    rw [if_neg (by simp [hph, hphase]), if_neg (by simp [hph, hphase])]

/-- Claim C4 (amended): on every tick that runs the scrolling block (phase
idle, positive scroll speed, rise pause not positive, no terminal flag),
after the tick either `hasLost` is set or no occupied cell of the resulting
grid has its top edge `y*cellSize − scrollOffsetPx` at or above the visible
top boundary.  (The source checks loss condition B only inside this block,
not on clearing/settling/paused/stopped ticks — see
`top_breach_missed_tick`.) -/
theorem top_breach_loss_spec (e : Engine) (dtMs : ℚ)
    (hwon : e.hasWon = false) (hlost : e.hasLost = false)
    (hphase : e.phase = Phase.idle)
    (hspeed : 0 < e.scrollSpeedPxPerSec)
    (hpause : e.risePauseMs ≤ 0) :
    (e.update dtMs).hasLost = true ∨
    ∀ y < (e.update dtMs).height, ∀ x < (e.update dtMs).width,
      0 ≤ (e.update dtMs).grid y x →
        0 < (y : ℚ) * (e.update dtMs).cellSize - (e.update dtMs).scrollOffsetPx := by
  rw [update_idle_route e dtMs hwon hlost hphase hspeed hpause]
  simp only [Engine.scrollStep]
  split_ifs with h1 h2
  · exact Or.inl h1
  · exact Or.inl rfl
  · right
    intro y hy x hx hocc
    simp only [Engine.topBreach, decide_eq_true_eq] at h2
    push_neg at h2
    exact h2 y hy x hx hocc

/-- Witness for `top_breach_loss_spec` on a freshly constructed engine. -/
theorem top_breach_loss_spec_witness :
    ((Engine.new 6 12 5).update 16).hasLost = true ∨
    ∀ y < ((Engine.new 6 12 5).update 16).height,
      ∀ x < ((Engine.new 6 12 5).update 16).width,
        0 ≤ ((Engine.new 6 12 5).update 16).grid y x →
          0 < (y : ℚ) * ((Engine.new 6 12 5).update 16).cellSize
            - ((Engine.new 6 12 5).update 16).scrollOffsetPx :=
  top_breach_loss_spec (Engine.new 6 12 5) 16 rfl rfl rfl
    (show (0 : ℚ) < 24 by norm_num) (show (0 : ℚ) ≤ 0 by norm_num)

/-- A clearing tick that has not yet expired changes only the timer, so in
particular it cannot set `hasLost`. -/
lemma clearingStep_noexpiry (e : Engine) (dtMs : ℚ)
    (h : ¬(e.clearTimerMs - dtMs ≤ 0)) :
    e.clearingStep dtMs = { e with clearTimerMs := e.clearTimerMs - dtMs } := by
  simp only [Engine.clearingStep]
  rw [if_neg h]

set_option maxRecDepth 16000 in
/-- Counterexample to claim C4 as stated: in `eBreach` the occupied cell
`(0, 0)` has top edge `0·64 − 0 ≤ 0` (at the visible top boundary), the
engine is not terminal, yet the next `update` tick (a clearing tick) does
not set `hasLost` — the loss-B check only runs in the idle scrolling
branch. -/
theorem top_breach_missed_tick :
    eBreach.grid 0 0 = 0 ∧
    eBreach.scrollOffsetPx = 0 ∧ eBreach.cellSize = 64 ∧
    ((0 : ℚ) * eBreach.cellSize - eBreach.scrollOffsetPx ≤ 0) ∧
    eBreach.hasWon = false ∧ eBreach.hasLost = false ∧
    (eBreach.update 16).hasLost = false := by
  have hoff : eBreach.scrollOffsetPx = 0 := rfl
  have hcs : eBreach.cellSize = 64 := rfl
  refine ⟨by decide, hoff, hcs, ?_, by decide, by decide, ?_⟩
  · rw [hoff, hcs]
    norm_num
  · rw [update_clearing_route eBreach 16 (by decide) (by decide) (by decide)]
    have hpz : eBreach.risePauseMs = 0 := rfl
    rw [if_neg (show ¬(0 < eBreach.risePauseMs) by rw [hpz]; norm_num)]
    have ht : eBreach.clearTimerMs = 230 := rfl
    rw [clearingStep_noexpiry eBreach 16 (by rw [ht]; norm_num)]
    decide

/-- Sanitization never changes the number of queued rows. -/
lemma sanitizeQueueGo_length (e : Engine) :
    ∀ (rows : List (List Int)) (sim : Nat → Nat → Int),
      (sanitizeQueueGo e rows sim).length = rows.length := by
  intro rows
  induction rows with
  | nil => intro sim; rfl
  | cons r rest ih =>
    intro sim
    simp only [sanitizeQueueGo, List.length_cons]
    rw [ih]

/-- Characterization of the bottom-up placement loop of `setLevelQueue`:
starting at row `fuel - 1` it places
`k = min (min (want - placed) queue.length) fuel` rows, consuming the queue
front and filling rows `fuel - k ≤ y < fuel` with queue rows (front
deepest), leaving every other row of `temp` untouched. -/
lemma placeRows_spec (want : Nat) : ∀ (fuel : Nat) (queue : List (Nat → Int))
    (temp : Nat → Nat → Int) (placed : Nat),
    (placeRows fuel want queue temp placed).2.2 =
      placed + min (min (want - placed) queue.length) fuel ∧
    (placeRows fuel want queue temp placed).2.1 =
      queue.drop (min (min (want - placed) queue.length) fuel) ∧
    ∀ y x, (placeRows fuel want queue temp placed).1 y x =
      if fuel - min (min (want - placed) queue.length) fuel ≤ y ∧ y < fuel then
        (queue.getD (fuel - 1 - y) (fun _ => -1)) x
      else temp y x := by
  intro fuel
  induction fuel with
  | zero =>
    intro queue temp placed
    refine ⟨by simp [placeRows], by simp [placeRows], ?_⟩
    intro y x
    rw [if_neg (by omega)]
    rfl
  | succ fuel ih =>
    intro queue temp placed
    simp only [placeRows]
    by_cases hpw : placed < want
    · rw [if_pos hpw]
      match queue with
      | [] =>
        refine ⟨by simp, by simp, ?_⟩
        intro y x
        rw [if_neg (by simp only [List.length_nil]; omega)]
      | r :: rest =>
        have hk : min (min (want - placed) (r :: rest).length) (fuel + 1) =
            min (min (want - (placed + 1)) rest.length) fuel + 1 := by
          simp only [List.length_cons]
          omega
        obtain ⟨ih1, ih2, ih3⟩ := ih rest
          (fun y x => if y = fuel then r x else temp y x) (placed + 1)
        refine ⟨?_, ?_, ?_⟩
        · rw [ih1, hk]
          omega
        · rw [ih2, hk]
          rfl
        · intro y x
          rw [ih3 y x, hk]
          by_cases hy1 : fuel - min (min (want - (placed + 1)) rest.length) fuel ≤ y ∧ y < fuel
          · rw [if_pos hy1, if_pos (by omega)]
            have hidx : fuel + 1 - 1 - y = (fuel - 1 - y) + 1 := by omega
            rw [hidx]
            rfl
          · rw [if_neg hy1]
            by_cases hy2 : y = fuel
            · rw [if_pos hy2, if_pos (by omega)]
              have hidx : fuel + 1 - 1 - y = 0 := by omega
              rw [hidx]
              rfl
            · rw [if_neg hy2, if_neg (by omega)]
    · rw [if_neg hpw]
      have hk : min (min (want - placed) queue.length) (fuel + 1) = 0 := by omega
      refine ⟨by simp [hk], by rw [hk]; rfl, ?_⟩
      intro y x
      rw [hk, if_neg (by omega)]

/-- Claim C10 (amended): `setLevelQueue(rows, visibleCount)` rebuilds the
visible grid from scratch.  With `want = max(0, visibleCount or 0)` and
`placed = min (min want rows.length) height` — the placement loop is also
bounded by the grid height, which the original claim omitted — the bottom
`placed` rows hold the first `placed` sanitized queue rows (earliest row
deepest), every other cell is empty regardless of the grid's previous
contents, `rowsInserted = placed`, and the remaining sanitized rows stay
queued. -/
theorem setLevelQueue_spec (e : Engine) (rows : List (List Int)) (vc : Option Int) :
    (e.sanitizedQueue rows).length = rows.length ∧
    (e.setLevelQueue rows vc).rowsInserted =
      min (min (visibleWant vc) rows.length) e.height ∧
    (e.setLevelQueue rows vc).levelQueue =
      (e.sanitizedQueue rows).drop (min (min (visibleWant vc) rows.length) e.height) ∧
    ∀ y x, (e.setLevelQueue rows vc).grid y x =
      if e.height - min (min (visibleWant vc) rows.length) e.height ≤ y ∧ y < e.height
      then ((e.sanitizedQueue rows).getD (e.height - 1 - y) (fun _ => -1)) x
      else -1 := by
  have hlen : (e.sanitizedQueue rows).length = rows.length :=
    sanitizeQueueGo_length e rows e.grid
  obtain ⟨h1, h2, h3⟩ := placeRows_spec (visibleWant vc) e.height
    (e.sanitizedQueue rows) (fun _ _ => -1) 0
  have hmm : min (min (visibleWant vc - 0) (e.sanitizedQueue rows).length) e.height
      = min (min (visibleWant vc) rows.length) e.height := by
    rw [hlen]
    omega
  rw [hmm] at h1 h2
  simp only [hmm] at h3
  refine ⟨hlen, ?_, ?_, ?_⟩
  · show (placeRows e.height (visibleWant vc) (e.sanitizedQueue rows) (fun _ _ => -1) 0).2.2 = _
    rw [h1]
    omega
  · show (placeRows e.height (visibleWant vc) (e.sanitizedQueue rows) (fun _ _ => -1) 0).2.1 = _
    rw [h2]
  · intro y x
    show (placeRows e.height (visibleWant vc) (e.sanitizedQueue rows) (fun _ _ => -1) 0).1 y x = _
    rw [h3 y x]

/-- Counterexample to claim C10 as stated: on a height-2 engine with three
queued rows and `visibleCount = 3`, only 2 rows are placed (`rowsInserted =
2`), not `min(number of sanitized rows, max(0, visibleCount)) = 3` — the
placement loop stops at the top of the grid. -/
theorem setLevelQueue_placed_capped :
    ((Engine.new 6 2 5).setLevelQueue [[], [], []] (some 3)).rowsInserted = 2 ∧
    ((Engine.new 6 2 5).sanitizedQueue [[], [], []]).length = 3 ∧
    visibleWant (some 3) = 3 :=
  ⟨by decide, by decide, by decide⟩

set_option maxRecDepth 16000 in
/-- Claim C3 fails on the code: the third sanitized queue row is
`[1, 1, 1, 2, 3, 4]`, so at the moment of its insertion the match scan
marks the three leading cells of the (freshly inserted) bottom row — an
immediate match caused solely by that row, with every row above row 9
still empty.  This contradicts `sanitizeRow`'s stated guarantee. -/
theorem sanitizer_gap_failure :
    ((eSan.levelQueue.getD 2 (fun _ => -1)) 0 = 1 ∧
      (eSan.levelQueue.getD 2 (fun _ => -1)) 1 = 1 ∧
      (eSan.levelQueue.getD 2 (fun _ => -1)) 2 = 1) ∧
    (eSan3.grid 11 0 = 1 ∧ eSan3.grid 11 1 = 1 ∧ eSan3.grid 11 2 = 1) ∧
    (∀ y < 9, ∀ x < 6, eSan3.grid y x = -1) ∧
    ((eSan3.scanForMatches).1 11 0 = true ∧ (eSan3.scanForMatches).1 11 1 = true ∧
      (eSan3.scanForMatches).1 11 2 = true) ∧
    (eSan3.scanForMatches).2 = true :=
  ⟨⟨by decide, by decide, by decide⟩, ⟨by decide, by decide, by decide⟩,
    by decide, ⟨by decide, by decide, by decide⟩, by decide⟩

lemma cursorInv_of_fieldsEq {e' e : Engine} (hf : cursorFieldsEq e' e)
    (hi : cursorInv e) : cursorInv e' := by
  obtain ⟨h1, h2, h3, h4⟩ := hf
  simp only [cursorInv] at hi ⊢
  rw [h1, h2, h3, h4]
  exact hi

lemma swap_cursorFields (e : Engine) : cursorFieldsEq e.swap e := by
  simp only [Engine.swap]
  split_ifs <;> exact ⟨rfl, rfl, rfl, rfl⟩

lemma clearingStep_cursorFields (e : Engine) (dtMs : ℚ) :
    cursorFieldsEq (e.clearingStep dtMs) e := by
  simp only [Engine.clearingStep]
  split_ifs <;> exact ⟨rfl, rfl, rfl, rfl⟩

lemma afterSettleScan_cursorFields (e : Engine) :
    cursorFieldsEq e.afterSettleScan e := by
  simp only [Engine.afterSettleScan]
  split_ifs <;> exact ⟨rfl, rfl, rfl, rfl⟩

lemma settlingStep_cursorFields (e : Engine) (dtMs : ℚ) :
    cursorFieldsEq (e.settlingStep dtMs) e := by
  simp only [Engine.settlingStep]
  split_ifs <;>
    first
      | exact ⟨rfl, rfl, rfl, rfl⟩
      | exact afterSettleScan_cursorFields _

lemma insertRow_inv {e : Engine} (h : cursorInv e) :
    cursorInv (e.insertRowFromBottomFromQueue).2 := by
  simp only [Engine.insertRowFromBottomFromQueue]
  split_ifs with h1
  · exact h
  · obtain ⟨a, b, c, d⟩ := h
    refine ⟨a, b, ?_, ?_⟩
    · show (0 : Int) ≤ max 0 (e.cursorY - 1)
      omega
    · show max 0 (e.cursorY - 1) ≤ (e.height : Int) - 1
      omega

lemma consumeRows_inv (fuel : Nat) : ∀ e : Engine, cursorInv e →
    cursorInv (e.consumeRows fuel) := by
  induction fuel with
  | zero => intro e h; exact h
  | succ n ih =>
    intro e h
    simp only [Engine.consumeRows]
    split_ifs with h1 h2
    · exact insertRow_inv h
    · exact ih _ (insertRow_inv h)
    · exact h

lemma scrollStep_inv (e : Engine) (dtMs : ℚ) (h : cursorInv e) :
    cursorInv (e.scrollStep dtMs) := by
  simp only [Engine.scrollStep]
  split_ifs with h1 h2
  · exact consumeRows_inv _ _ h
  · exact consumeRows_inv _ _ h
  · exact consumeRows_inv _ _ h

lemma update_inv (e : Engine) (dtMs : ℚ) (h : cursorInv e) :
    cursorInv (e.update dtMs) := by
  simp only [Engine.update]
  split_ifs <;>
    first
      | exact h
      | exact scrollStep_inv _ _ h
      | exact cursorInv_of_fieldsEq (clearingStep_cursorFields _ _) h
      | exact cursorInv_of_fieldsEq (clearingStep_cursorFields _ _) (scrollStep_inv _ _ h)
      | exact cursorInv_of_fieldsEq (settlingStep_cursorFields _ _) h
      | exact cursorInv_of_fieldsEq (settlingStep_cursorFields _ _) (scrollStep_inv _ _ h)

/-- Claim C9 (amended): for every engine with `width ≥ 2` and `height ≥ 1`
(the height bound, omitted by the original claim, is necessary — see
`cursor_bounds_height_zero`), the cursor-bounds invariant holds after
construction and is established or preserved by `moveCursor`,
`setCursorAbsolute`, `swap`, and `update` (which covers automatic row
insertions, where `cursorY` drops by one clamped at 0). -/
theorem cursor_bounds_spec (w h c : Nat) (hw : 2 ≤ w) (hh : 1 ≤ h) :
    cursorInv (Engine.new w h c) ∧
    (∀ e : Engine, 2 ≤ e.width → 1 ≤ e.height →
      ∀ dx dy : Int, cursorInv (e.moveCursor dx dy)) ∧
    (∀ e : Engine, 2 ≤ e.width → 1 ≤ e.height →
      ∀ x y : Int, cursorInv (e.setCursorAbsolute x y)) ∧
    (∀ e : Engine, cursorInv e → cursorInv e.swap) ∧
    (∀ e : Engine, cursorInv e → ∀ dtMs : ℚ, cursorInv (e.update dtMs)) := by
  refine ⟨?_, ?_, ?_, ?_, ?_⟩
  · refine ⟨?_, ?_, ?_, ?_⟩
    · show (0 : Int) ≤ ((w : Int) - 2).fdiv 2
      exact Int.fdiv_nonneg (by omega) (by omega)
    · show ((w : Int) - 2).fdiv 2 ≤ (w : Int) - 2
      rw [Int.fdiv_eq_ediv _ (by omega)]
      omega
    · show (0 : Int) ≤ ((h / 2 : Nat) : Int)
      omega
    · show ((h / 2 : Nat) : Int) ≤ (h : Int) - 1
      omega
  · intro e hw' hh' dx dy
    refine ⟨?_, ?_, ?_, ?_⟩ <;>
      simp only [Engine.moveCursor] <;> omega
  · intro e hw' hh' x y
    refine ⟨?_, ?_, ?_, ?_⟩ <;>
      simp only [Engine.setCursorAbsolute] <;> omega
  · intro e he
    exact cursorInv_of_fieldsEq (swap_cursorFields e) he
  · intro e he dtMs
    exact update_inv e dtMs he

/-- Witness for `cursor_bounds_spec` at concrete dimensions. -/
theorem cursor_bounds_spec_witness :
    cursorInv (Engine.new 6 12 5) ∧
    (∀ e : Engine, 2 ≤ e.width → 1 ≤ e.height →
      ∀ dx dy : Int, cursorInv (e.moveCursor dx dy)) ∧
    (∀ e : Engine, 2 ≤ e.width → 1 ≤ e.height →
      ∀ x y : Int, cursorInv (e.setCursorAbsolute x y)) ∧
    (∀ e : Engine, cursorInv e → cursorInv e.swap) ∧
    (∀ e : Engine, cursorInv e → ∀ dtMs : ℚ, cursorInv (e.update dtMs)) :=
  cursor_bounds_spec 6 12 5 (by decide) (by decide)

/-- Counterexample to claim C9 as stated: a constructible engine with
`width = 2` but `height = 0` starts with `cursorY = 0`, violating
`cursorY ≤ height − 1 = −1`. -/
theorem cursor_bounds_height_zero :
    2 ≤ (Engine.new 2 0 5).width ∧
    ¬((Engine.new 2 0 5).cursorY ≤ ((Engine.new 2 0 5).height : Int) - 1) :=
  ⟨by decide, by decide⟩
